import Mathlib

/-!
Verification of the FreeBody diagram layout engine (`src/app.py`, function
`draw_fbd` and its helpers) against its natural-language specification.

Python floats are modelled as exact rationals (`ℚ`) where all quantities are
rational, and as real numbers (`ℝ`) where the code computes transcendental
values (`np.cos`, `np.sin`, `np.exp`). Python `None` is modelled as
`Option.none`; a `KeyError` aborting the render is modelled by the layout
returning `none`.
-/

namespace FreeBody

/-- One force specification as collected by the UI: an optional magnitude
(`None` for "unknown"), a symbolic direction token, an angle in degrees
(used only in angled mode) and a label. Colors are irrelevant to geometry
and omitted. -/
structure Force where
  magnitude : Option ℚ
  direction : String
  angleDeg : ℚ
  label : String
deriving Repr, DecidableEq

/-- `direction_map = {"Up": (0, 1), "Down": (0, -1), "Left": (-1, 0), "Right": (1, 0)}`
(src/app.py line 61). A lookup of any other key raises `KeyError`, modelled
as `none`. -/
def direction_map (d : String) : Option (ℚ × ℚ) :=
  if d = "Up" then some (0, 1)
  else if d = "Down" then some (0, -1)
  else if d = "Left" then some (-1, 0)
  else if d = "Right" then some (1, 0)
  else none

/-- `force = forces[i] if not simple_mode else 1` (src/app.py line 66). -/
def effectiveForce (simple_mode : Bool) (f : Force) : Option ℚ :=
  if simple_mode then some 1 else f.magnitude

/-- The displacement `(dx, dy)` of one drawn force (src/app.py lines 70-75):
in angled mode `dx = force * 0.5 * cos(radians(angle))`,
`dy = force * 0.5 * sin(radians(angle))`; otherwise
`dx, dy = [component * force * 0.5 for component in direction_map[directions[i]]]`,
where the dictionary lookup can fail (`none`). -/
noncomputable def displacementOf (angled_mode : Bool) (force : ℚ) (f : Force) :
    Option (ℝ × ℝ) :=
  if angled_mode then
    let θ : ℝ := (f.angleDeg : ℝ) * Real.pi / 180
    some ((force : ℝ) * (1/2) * Real.cos θ, (force : ℝ) * (1/2) * Real.sin θ)
  else
    (direction_map f.direction).map
      (fun u => (((u.1 * force * (1/2) : ℚ) : ℝ), ((u.2 * force * (1/2) : ℚ) : ℝ)))

/-- Everything the loop body draws for one force: the arrow displacement,
the label anchor position, and the label content (`labelMagnitude = some force`
exactly when the rendered text is `f"{labels[i]} ({force}N)"`, i.e. not in
simple mode; src/app.py lines 78-89). -/
structure DrawnForce where
  dx : ℝ
  dy : ℝ
  labelX : ℝ
  labelY : ℝ
  labelBase : String
  labelMagnitude : Option ℚ

/-- Outcome of one iteration of the force loop (src/app.py lines 65-89):
the iteration may `continue` (unknown or non-positive magnitude), draw an
arrow and label, or raise `KeyError` on a bad direction token, aborting the
whole render. -/
inductive StepResult where
  | aborted : StepResult
  | skipped : StepResult
  | drawn : DrawnForce → StepResult

/-- One iteration of the force loop of `draw_fbd` (src/app.py lines 65-89):
`force = forces[i] if not simple_mode else 1`;
`if force is None or force <= 0: continue`;
displacement per mode; `label_offset_x = 0.3 if dx >= 0 else -0.3` (same for y);
`label_x = dx + label_offset_x`; `label_y = dy + label_offset_y`;
label text carries the magnitude unless in simple mode. -/
noncomputable def layoutForce (simple_mode angled_mode : Bool) (f : Force) :
    StepResult :=
  match effectiveForce simple_mode f with
  | none => .skipped
  | some force =>
    if force ≤ 0 then .skipped
    else
      match displacementOf angled_mode force f with
      | none => .aborted
      | some (dx, dy) =>
        let label_offset_x : ℝ := if 0 ≤ dx then 3/10 else -(3/10)
        let label_offset_y : ℝ := if 0 ≤ dy then 3/10 else -(3/10)
        .drawn ⟨dx, dy, dx + label_offset_x, dy + label_offset_y, f.label,
                if simple_mode then none else some force⟩

/-- The whole force loop (src/app.py lines 64-89): processes the forces in
order, collecting the drawn forces; a `KeyError` in any iteration aborts
the render (`none`). -/
noncomputable def layoutAll (simple_mode angled_mode : Bool) :
    List Force → Option (List DrawnForce)
  | [] => some []
  | f :: rest =>
    match layoutForce simple_mode angled_mode f with
    | .aborted => none
    | .skipped => layoutAll simple_mode angled_mode rest
    | .drawn d => (layoutAll simple_mode angled_mode rest).map (fun L => d :: L)

/-- `np.linspace(a, b, n)` with endpoint included: `a + (b - a) * i / (n - 1)`. -/
def linspace (a b : ℚ) (n : ℕ) : List ℚ :=
  (List.range n).map (fun i => a + (b - a) * i / ((n : ℚ) - 1))

/-- `grid_x = np.linspace(-1, 1, 10)` (src/app.py line 92; `grid_y` is the
same list, line 93). -/
def grid_x : List ℚ := linspace (-1) 1 10

/-- The candidate positions in scan order: outer loop over `grid_x`, inner
loop over `grid_y` (src/app.py lines 97-98). -/
def gridCandidates : List (ℚ × ℚ) :=
  grid_x.flatMap (fun gx => grid_x.map (fun gy => (gx, gy)))

/-- `density = sum(np.exp(-((gx - px)**2 + (gy - py)**2)) for px, py in points)`
(src/app.py line 99). -/
noncomputable def density (points : List (ℝ × ℝ)) (g : ℚ × ℚ) : ℝ :=
  (points.map (fun p => Real.exp (-(((g.1 : ℝ) - p.1) ^ 2 + ((g.2 : ℝ) - p.2) ^ 2)))).sum

/-- The minimum search loop of src/app.py lines 94-102, generic in the score
type. The accumulator `none` models `min_density = float('inf')` (any finite
score beats it); `some (m, b)` models `min_density = m, best_position = b`;
the update happens exactly when `density < min_density`. -/
def searchLoop {α : Type} [LinearOrder α] (score : ℚ × ℚ → α) :
    List (ℚ × ℚ) → Option (α × (ℚ × ℚ)) → Option (α × (ℚ × ℚ))
  | [], acc => acc
  | g :: rest, none => searchLoop score rest (some (score g, g))
  | g :: rest, some (m, b) =>
    if score g < m then searchLoop score rest (some (score g, g))
    else searchLoop score rest (some (m, b))

/-- `best_position` as computed by src/app.py lines 94-102: the double loop
over the grid keeping the first candidate of strictly minimal density; the
initial `(0, 0)` survives only if no candidate is examined. -/
noncomputable def bestPosition (points : List (ℝ × ℝ)) : ℚ × ℚ :=
  match searchLoop (density points) gridCandidates none with
  | none => (0, 0)
  | some (_, b) => b

/-- `ax.set_xlim(-1.5, 1.5)` (src/app.py line 117): the view bounds are a
fixed constant, independent of the drawn content. -/
noncomputable def xlim : ℝ × ℝ := (-(3/2), 3/2)

/-- `ax.set_ylim(-1.5, 1.5)` (src/app.py line 118). -/
noncomputable def ylim : ℝ × ℝ := (-(3/2), 3/2)

/-- Modelled from the spec: the Resultant Calculator (§4.4) is not part of
`src/app.py` (that variant never computes a resultant); per the spec, when
any Force has an unknown magnitude the resultant is unavailable (`none`,
the `ResultantUnavailable` signal), otherwise it is the component-wise sum
of the laid-out displacement vectors together with the Euclidean norm of
that un-biased sum. -/
noncomputable def resultant (forces : List Force) (drawn : List DrawnForce) :
    Option ((ℝ × ℝ) × ℝ) :=
  if forces.any (fun f => f.magnitude.isNone) then none
  else
    let v := drawn.foldl (fun acc d => (acc.1 + d.dx, acc.2 + d.dy)) ((0 : ℝ), (0 : ℝ))
    some (v, Real.sqrt (v.1 ^ 2 + v.2 ^ 2))

/-- Modelled from the spec (for comparison in claim C4 only): "a 10×10 grid
over the visible bounds" — the visible bounds are `xlim = ylim = (-1.5, 1.5)`,
so this grid samples `np.linspace(-1.5, 1.5, 10)` in each axis. -/
def visibleBoundsGrid : List (ℚ × ℚ) :=
  (linspace (-(3/2)) (3/2) 10).flatMap
    (fun gx => (linspace (-(3/2)) (3/2) 10).map (fun gy => (gx, gy)))

/-! ### Generic facts about the minimum search loop -/

/-- Accumulator-free reformulation of the search loop, recursing from the
right: the first (leftmost) strict minimum wins. Used only to reason about
`searchLoop`. -/
def firstMin {α : Type} [LinearOrder α] (score : ℚ × ℚ → α) :
    List (ℚ × ℚ) → Option (α × (ℚ × ℚ))
  | [] => none
  | g :: rest =>
    match firstMin score rest with
    | none => some (score g, g)
    | some (m, b) => if m < score g then some (m, b) else some (score g, g)

/-- Merge an accumulator with the result of scanning the remaining list;
ties favour the accumulator (the earlier candidate). -/
def mergeAcc {α : Type} [LinearOrder α] :
    Option (α × (ℚ × ℚ)) → Option (α × (ℚ × ℚ)) → Option (α × (ℚ × ℚ))
  | acc, none => acc
  | none, some r => some r
  | some (m, b), some (m', b') => if m' < m then some (m', b') else some (m, b)

theorem searchLoop_some_eq {α : Type} [LinearOrder α] (score : ℚ × ℚ → α)
    (l : List (ℚ × ℚ)) (m : α) (b : ℚ × ℚ) :
    searchLoop score l (some (m, b)) = mergeAcc (some (m, b)) (firstMin score l) := by
  induction l generalizing m b with
  | nil => rfl
  | cons g rest ih =>
    show (if score g < m then searchLoop score rest (some (score g, g))
          else searchLoop score rest (some (m, b))) = _
    cases h : firstMin score rest with
    | none =>
      have hcons : firstMin score (g :: rest) = some (score g, g) := by
        simp only [firstMin, h]
      rw [hcons]
      simp only [ih]
      rw [h]
      by_cases hg : score g < m
      · rw [if_pos hg]
        simp only [mergeAcc]
        rw [if_pos hg]
      · rw [if_neg hg]
        simp only [mergeAcc]
        rw [if_neg hg]
    | some p =>
      obtain ⟨m', b'⟩ := p
      have hcons : firstMin score (g :: rest) =
          if m' < score g then some (m', b') else some (score g, g) := by
        simp only [firstMin, h]
      rw [hcons]
      simp only [ih]
      rw [h]
      by_cases hg : score g < m <;> by_cases h2 : m' < score g
      · rw [if_pos hg, if_pos h2]
        simp only [mergeAcc]
        rw [if_pos h2, if_pos (lt_trans h2 hg)]
      · rw [if_pos hg, if_neg h2]
        simp only [mergeAcc]
        rw [if_neg h2, if_pos hg]
      · rw [if_neg hg, if_pos h2]
      · rw [if_neg hg, if_neg h2]
        simp only [mergeAcc]
        rw [if_neg (not_lt.mpr (le_trans (not_lt.mp hg) (not_lt.mp h2))), if_neg hg]

/-- On the `float('inf')` starting accumulator the loop computes exactly the
first minimum of the list. -/
theorem searchLoop_none_eq {α : Type} [LinearOrder α] (score : ℚ × ℚ → α)
    (l : List (ℚ × ℚ)) :
    searchLoop score l none = firstMin score l := by
  cases l with
  | nil => rfl
  | cons g rest =>
    show searchLoop score rest (some (score g, g)) = _
    rw [searchLoop_some_eq]
    cases h : firstMin score rest with
    | none =>
      have hcons : firstMin score (g :: rest) = some (score g, g) := by
        simp only [firstMin, h]
      rw [hcons]
      rfl
    | some p =>
      obtain ⟨m2, b2⟩ := p
      have hcons : firstMin score (g :: rest) =
          if m2 < score g then some (m2, b2) else some (score g, g) := by
        simp only [firstMin, h]
      rw [hcons]
      rfl

/-- `firstMin` is `none` only on the empty list. -/
theorem firstMin_eq_none {α : Type} [LinearOrder α] (score : ℚ × ℚ → α)
    (l : List (ℚ × ℚ)) (h : firstMin score l = none) : l = [] := by
  cases l with
  | nil => rfl
  | cons g rest =>
    exfalso
    cases h' : firstMin score rest with
    | none =>
      have hcons : firstMin score (g :: rest) = some (score g, g) := by
        simp only [firstMin, h']
      rw [hcons] at h
      exact Option.noConfusion h
    | some p =>
      obtain ⟨m, b⟩ := p
      have hcons : firstMin score (g :: rest) =
          if m < score g then some (m, b) else some (score g, g) := by
        simp only [firstMin, h']
      rw [hcons] at h
      split_ifs at h

/-- Characterisation of `firstMin`: it returns, with its score, the first
candidate in list order whose score is minimal over the whole list. -/
theorem firstMin_spec {α : Type} [LinearOrder α] (score : ℚ × ℚ → α)
    (l : List (ℚ × ℚ)) (m : α) (b : ℚ × ℚ) (h : firstMin score l = some (m, b)) :
    m = score b ∧
    ∃ l₁ l₂, l = l₁ ++ b :: l₂ ∧ (∀ c ∈ l, score b ≤ score c) ∧
      (∀ c ∈ l₁, score b < score c) := by
  induction l generalizing m b with
  | nil => exact Option.noConfusion h
  | cons g rest ih =>
    cases h' : firstMin score rest with
    | none =>
      have hrest := firstMin_eq_none score rest h'
      have hcons : firstMin score (g :: rest) = some (score g, g) := by
        simp only [firstMin, h']
      rw [hcons] at h
      simp only [Option.some.injEq, Prod.mk.injEq] at h
      obtain ⟨hm, hb⟩ := h
      subst hrest hb
      exact ⟨hm.symm, [], [], rfl, by simp, by simp⟩
    | some p =>
      obtain ⟨m', b'⟩ := p
      have hcons : firstMin score (g :: rest) =
          if m' < score g then some (m', b') else some (score g, g) := by
        simp only [firstMin, h']
      rw [hcons] at h
      obtain ⟨hm', l₁, l₂, hsplit, hmin, hfirst⟩ := ih m' b' h'
      split_ifs at h with hlt
      · simp only [Option.some.injEq, Prod.mk.injEq] at h
        obtain ⟨hm, hb⟩ := h
        subst hb hm
        refine ⟨hm', g :: l₁, l₂, by rw [hsplit]; rfl, ?_, ?_⟩
        · intro c hc
          rcases List.mem_cons.mp hc with hc | hc
          · subst hc; exact le_of_lt (hm' ▸ hlt)
          · exact hmin c hc
        · intro c hc
          rcases List.mem_cons.mp hc with hc | hc
          · subst hc; exact hm' ▸ hlt
          · exact hfirst c hc
      · simp only [Option.some.injEq, Prod.mk.injEq] at h
        obtain ⟨hm, hb⟩ := h
        subst hb hm
        refine ⟨rfl, [], rest, rfl, ?_, by simp⟩
        intro c hc
        rcases List.mem_cons.mp hc with hc | hc
        · subst hc; exact le_refl _
        · exact le_trans (le_trans (not_lt.mp hlt) (le_of_eq hm')) (hmin c hc)

/-- If the head of the candidate list already has minimal score, the search
loop returns the head (ties are broken in favour of the earlier candidate). -/
theorem searchLoop_head {α : Type} [LinearOrder α] (score : ℚ × ℚ → α)
    (g : ℚ × ℚ) (rest : List (ℚ × ℚ))
    (hmin : ∀ c ∈ g :: rest, score g ≤ score c) :
    searchLoop score (g :: rest) none = some (score g, g) := by
  rw [searchLoop_none_eq]
  cases h : firstMin score (g :: rest) with
  | none => exact absurd (firstMin_eq_none score _ h) (List.cons_ne_nil g rest)
  | some p =>
    obtain ⟨m, b⟩ := p
    obtain ⟨hm, l₁, l₂, hsplit, hminb, hfirst⟩ := firstMin_spec score _ m b h
    have hbg : b = g := by
      cases l₁ with
      | nil =>
        have := List.cons.injEq .. ▸ hsplit
        exact this.1.symm
      | cons x xs =>
        exfalso
        have hx : x = g := ((List.cons.injEq .. ▸ hsplit).1).symm
        have hlt := hfirst x (List.mem_cons_self x xs)
        rw [hx] at hlt
        exact absurd
          (hmin b (hsplit ▸ List.mem_append_right _ (List.mem_cons_self b l₂)))
          (not_le.mpr hlt)
    subst hbg hm
    rfl

/-! ### Inversion lemmas for the layout loop -/

/-- The only vectors `direction_map` can produce are axis-aligned. -/
theorem direction_map_component_zero (s : String) (u : ℚ × ℚ)
    (h : direction_map s = some u) : u.1 = 0 ∨ u.2 = 0 := by
  unfold direction_map at h
  split_ifs at h
  · exact Or.inl (by rw [← Option.some.inj h])
  · exact Or.inl (by rw [← Option.some.inj h])
  · exact Or.inr (by rw [← Option.some.inj h])
  · exact Or.inr (by rw [← Option.some.inj h])

/-- Inversion of one loop iteration that draws: recovers the effective
magnitude, the displacement, and the label data. -/
theorem layoutForce_drawn (simple_mode angled_mode : Bool) (f : Force)
    (d : DrawnForce) (h : layoutForce simple_mode angled_mode f = .drawn d) :
    ∃ force, effectiveForce simple_mode f = some force ∧ ¬ force ≤ 0 ∧
      displacementOf angled_mode force f = some (d.dx, d.dy) ∧
      d.labelX = d.dx + (if 0 ≤ d.dx then (3 : ℝ)/10 else -(3/10)) ∧
      d.labelY = d.dy + (if 0 ≤ d.dy then (3 : ℝ)/10 else -(3/10)) ∧
      d.labelBase = f.label ∧
      d.labelMagnitude = (if simple_mode then none else some force) := by
  unfold layoutForce at h
  cases he : effectiveForce simple_mode f with
  | none => simp only [he] at h; exact StepResult.noConfusion h
  | some force =>
    simp only [he] at h
    by_cases hf : force ≤ 0
    · simp only [if_pos hf] at h
      exact StepResult.noConfusion h
    · simp only [if_neg hf] at h
      cases hd : displacementOf angled_mode force f with
      | none =>
        simp only [hd] at h
        exact StepResult.noConfusion h
      | some p =>
        obtain ⟨dx, dy⟩ := p
        simp only [hd, StepResult.drawn.injEq] at h
        subst h
        exact ⟨force, rfl, hf, hd, rfl, rfl, rfl, rfl⟩

/-- Every drawn force in the output of the loop comes from one input force
drawn by `layoutForce`. -/
theorem layoutAll_mem (simple_mode angled_mode : Bool) (fs : List Force)
    (L : List DrawnForce) (h : layoutAll simple_mode angled_mode fs = some L)
    (d : DrawnForce) (hd : d ∈ L) :
    ∃ f ∈ fs, layoutForce simple_mode angled_mode f = .drawn d := by
  induction fs generalizing L with
  | nil =>
    simp only [layoutAll, Option.some.injEq] at h
    subst h
    cases hd
  | cons f rest ih =>
    cases hf : layoutForce simple_mode angled_mode f with
    | aborted =>
      simp only [layoutAll, hf] at h
      exact Option.noConfusion h
    | skipped =>
      simp only [layoutAll, hf] at h
      obtain ⟨f', hf', hd'⟩ := ih L h hd
      exact ⟨f', List.mem_cons_of_mem f hf', hd'⟩
    | drawn d' =>
      simp only [layoutAll, hf] at h
      cases hrest : layoutAll simple_mode angled_mode rest with
      | none => rw [hrest] at h; exact Option.noConfusion h
      | some L' =>
        rw [hrest] at h
        simp only [Option.map_some', Option.some.injEq] at h
        subst h
        rcases List.mem_cons.mp hd with hdd | hdd
        · exact ⟨f, List.mem_cons_self f rest, hdd ▸ hf⟩
        · obtain ⟨f', hf', hd'⟩ := ih L' hrest hdd
          exact ⟨f', List.mem_cons_of_mem f hf', hd'⟩

/-- The crowding score of the empty point set is zero everywhere. -/
theorem density_nil (g : ℚ × ℚ) : density [] g = 0 := rfl

/-- The ten grid samples `np.linspace(-1, 1, 10)`, written out. -/
theorem grid_x_eq :
    grid_x = [-1, -7/9, -5/9, -1/3, -1/9, 1/9, 1/3, 5/9, 7/9, 1] := by
  norm_num [grid_x, linspace, List.range_succ]

/-- The first candidate examined by the double loop is `(-1, -1)`. -/
theorem gridCandidates_head :
    gridCandidates.head? = some ((-1 : ℚ), (-1 : ℚ)) := by
  unfold gridCandidates
  rw [grid_x_eq]
  rfl

/-! ### Claim theorems -/

/-- C6: direction resolution maps Up to (0,1), Down to (0,-1), Left to
(-1,0) and Right to (1,0) exactly, and consequently every force drawn from
a symbolic direction token (symbolic tokens are consulted only in
non-angled renders, in both simple and non-simple mode) has a displacement
with one component exactly zero. -/
theorem C6_symbolic_directions_axis_aligned :
    (direction_map "Up" = some (0, 1) ∧ direction_map "Down" = some (0, -1) ∧
     direction_map "Left" = some (-1, 0) ∧ direction_map "Right" = some (1, 0)) ∧
    ∀ (simple_mode : Bool) (f : Force) (d : DrawnForce),
      layoutForce simple_mode false f = .drawn d → d.dx = 0 ∨ d.dy = 0 := by
  refine ⟨⟨rfl, rfl, rfl, rfl⟩, ?_⟩
  intro simple_mode f d h
  obtain ⟨force, he, hf, hd, -, -, -, -⟩ := layoutForce_drawn _ _ _ _ h
  unfold displacementOf at hd
  simp only [Bool.false_eq_true, if_false] at hd
  cases hu : direction_map f.direction with
  | none => rw [hu] at hd; exact Option.noConfusion hd
  | some u =>
    rw [hu] at hd
    simp only [Option.map_some', Option.some.injEq, Prod.mk.injEq] at hd
    obtain ⟨h1, h2⟩ := hd
    rcases direction_map_component_zero _ _ hu with hz | hz
    · left; rw [← h1, hz]; norm_num
    · right; rw [← h2, hz]; norm_num

/-- Witness for C6: the force `{magnitude: 2, direction: "Up"}` in
non-simple, non-angled mode is drawn with displacement `(0, 1)`, whose
first component is zero. -/
theorem C6_witness :
    layoutForce false false ⟨some 2, "Up", 0, "F"⟩ =
      .drawn ⟨0, 1, 0 + 3/10, 1 + 3/10, "F", some 2⟩ ∧
    ((0 : ℝ) = 0 ∨ (1 : ℝ) = 0) := by
  constructor
  · unfold layoutForce effectiveForce displacementOf direction_map
    norm_num
  · exact C6_symbolic_directions_axis_aligned.2 false ⟨some 2, "Up", 0, "F"⟩
      ⟨0, 1, 0 + 3/10, 1 + 3/10, "F", some 2⟩
      (by unfold layoutForce effectiveForce displacementOf direction_map; norm_num)

/-- C7: with zero occupied points every candidate scores zero, and the
search deterministically returns the first grid candidate `(-1, -1)` — one
fixed default position, the same on every call (the search is a pure
function). -/
theorem C7_empty_points_fixed_default : bestPosition [] = (-1, -1) := by
  unfold bestPosition
  cases hg : gridCandidates with
  | nil =>
    exfalso
    have h1 := gridCandidates_head
    rw [hg] at h1
    exact Option.noConfusion h1
  | cons c rest =>
    have hc : c = (-1, -1) := by
      have h1 := gridCandidates_head
      rw [hg] at h1
      exact Option.some.inj h1
    have hloop := searchLoop_head (density []) c rest (by
      intro x hx
      rw [density_nil, density_nil])
    rw [hloop]
    exact hc

/-- Evaluated `direction_map` lookups, for concrete renders. -/
theorem direction_map_up : direction_map "Up" = some (0, 1) := rfl

theorem direction_map_right : direction_map "Right" = some (1, 0) := rfl

theorem direction_map_sideways : direction_map "Sideways" = none := rfl

theorem direction_map_diag : direction_map "Diag" = none := rfl

/-- The four direction vectors are unit vectors. -/
theorem direction_map_unit (s : String) (u : ℚ × ℚ)
    (h : direction_map s = some u) : u.1 ^ 2 + u.2 ^ 2 = 1 := by
  unfold direction_map at h
  split_ifs at h <;> rw [← Option.some.inj h] <;> norm_num

/-- The component-wise accumulation of src/app.py's resultant model is the
pair of component sums. -/
theorem foldl_sum_pair (L : List DrawnForce) (a b : ℝ) :
    L.foldl (fun acc d => (acc.1 + d.dx, acc.2 + d.dy)) (a, b) =
      (a + (L.map DrawnForce.dx).sum, b + (L.map DrawnForce.dy).sum) := by
  induction L generalizing a b with
  | nil => simp
  | cons d rest ih =>
    simp only [List.foldl_cons, ih, List.map_cons, List.sum_cons, Prod.mk.injEq]
    constructor <;> ring

/-- C10: in simple mode every force's effective magnitude is 1 (whatever
magnitude the caller supplied, known or not), every drawn arrow's
displacement has Euclidean length exactly 0.5, and every drawn label omits
the magnitude text. -/
theorem C10_simple_mode_unit_arrows :
    (∀ f : Force, effectiveForce true f = some 1) ∧
    ∀ (angled_mode : Bool) (fs : List Force) (L : List DrawnForce),
      layoutAll true angled_mode fs = some L →
      ∀ d ∈ L, Real.sqrt (d.dx ^ 2 + d.dy ^ 2) = 1/2 ∧ d.labelMagnitude = none := by
  refine ⟨fun f => rfl, ?_⟩
  intro angled_mode fs L hL d hd
  obtain ⟨f, hf, hdrawn⟩ := layoutAll_mem _ _ _ _ hL d hd
  obtain ⟨force, he, hfpos, hdisp, -, -, -, hmag⟩ := layoutForce_drawn _ _ _ _ hdrawn
  have hforce : force = 1 := by
    have h1 : (some 1 : Option ℚ) = some force := by rw [← he]; rfl
    exact (Option.some.inj h1).symm
  subst hforce
  refine ⟨?_, by rw [hmag]; rfl⟩
  have hsq : d.dx ^ 2 + d.dy ^ 2 = (1/2 : ℝ) ^ 2 := by
    cases angled_mode with
    | true =>
      unfold displacementOf at hdisp
      simp only [if_true, Option.some.injEq, Prod.mk.injEq] at hdisp
      obtain ⟨h1, h2⟩ := hdisp
      rw [← h1, ← h2]
      have hid := Real.sin_sq_add_cos_sq ((f.angleDeg : ℝ) * Real.pi / 180)
      push_cast
      nlinarith [hid]
    | false =>
      unfold displacementOf at hdisp
      simp only [Bool.false_eq_true, if_false] at hdisp
      cases hu : direction_map f.direction with
      | none => rw [hu] at hdisp; exact Option.noConfusion hdisp
      | some u =>
        rw [hu] at hdisp
        simp only [Option.map_some', Option.some.injEq, Prod.mk.injEq] at hdisp
        obtain ⟨h1, h2⟩ := hdisp
        have hu1 : ((u.1 : ℝ)) ^ 2 + (u.2 : ℝ) ^ 2 = 1 := by
          exact_mod_cast direction_map_unit _ _ hu
        rw [← h1, ← h2]
        push_cast
        nlinarith [hu1]
  rw [hsq, Real.sqrt_sq (by norm_num : (0:ℝ) ≤ 1/2)]

/-- Witness for C10: in simple mode a force whose caller-supplied magnitude
is 5 is drawn with displacement (0, 1/2) of length 1/2 and a label without
magnitude. -/
theorem C10_witness :
    layoutAll true false [⟨some 5, "Up", 0, "F"⟩] =
      some [⟨0, 1/2, 0 + 3/10, 1/2 + 3/10, "F", none⟩] ∧
    Real.sqrt ((0 : ℝ) ^ 2 + (1/2) ^ 2) = 1/2 ∧ (none : Option ℚ) = none := by
  have hL : layoutAll true false [(⟨some 5, "Up", 0, "F"⟩ : Force)] =
      some [⟨0, 1/2, 0 + 3/10, 1/2 + 3/10, "F", none⟩] := by
    simp only [layoutAll, layoutForce, effectiveForce, displacementOf, direction_map]
    norm_num
  refine ⟨hL, ?_⟩
  exact C10_simple_mode_unit_arrows.2 false _ _ hL
    ⟨0, 1/2, 0 + 3/10, 1/2 + 3/10, "F", none⟩ (List.mem_singleton_self _)

/-- C1 (spec-modelled resultant): whenever at least one input force has an
unknown magnitude, requesting a resultant yields the unavailability signal
(`none`) — never a vector summed from the partially known forces. -/
theorem C1_resultant_unavailable (forces : List Force) (drawn : List DrawnForce)
    (h : ∃ f ∈ forces, f.magnitude = none) :
    resultant forces drawn = none := by
  have hany : forces.any (fun f => f.magnitude.isNone) = true := by
    rw [List.any_eq_true]
    obtain ⟨f, hf, hm⟩ := h
    exact ⟨f, hf, by rw [hm]; rfl⟩
  unfold resultant
  rw [if_pos hany]

/-- Witness for C1: one force of unknown magnitude pointing Right; the
resultant is unavailable. -/
theorem C1_witness :
    (∃ f ∈ [(⟨none, "Right", 0, "F"⟩ : Force)], f.magnitude = none) ∧
    resultant [⟨none, "Right", 0, "F"⟩] [] = none :=
  ⟨⟨_, List.mem_singleton_self _, rfl⟩,
    C1_resultant_unavailable _ _ ⟨_, List.mem_singleton_self _, rfl⟩⟩

/-- C2 (spec-modelled resultant): when every input force has a known
positive magnitude, the resultant of a completed render is available, its
vector is the exact component-wise sum of the laid-out displacement
vectors, and its magnitude is the Euclidean norm of that un-biased sum. -/
theorem C2_resultant_componentwise_sum (simple_mode angled_mode : Bool)
    (forces : List Force) (L : List DrawnForce)
    (hL : layoutAll simple_mode angled_mode forces = some L)
    (hknown : ∀ f ∈ forces, ∃ m, f.magnitude = some m ∧ 0 < m) :
    resultant forces L =
      some (((L.map DrawnForce.dx).sum, (L.map DrawnForce.dy).sum),
        Real.sqrt ((L.map DrawnForce.dx).sum ^ 2 + (L.map DrawnForce.dy).sum ^ 2)) := by
  have hany : forces.any (fun f => f.magnitude.isNone) = false := by
    rw [List.any_eq_false]
    intro f hf
    obtain ⟨m, hm, -⟩ := hknown f hf
    rw [hm]
    exact Bool.noConfusion
  unfold resultant
  rw [hany]
  simp only [Bool.false_eq_true, if_false, foldl_sum_pair, zero_add]

/-- Witness for C2: one known 2 N force Up; the resultant is ((0,1), 1). -/
theorem C2_witness :
    layoutAll false false [⟨some 2, "Up", 0, "F"⟩] =
      some [⟨0, 1, 0 + 3/10, 1 + 3/10, "F", some 2⟩] ∧
    (∀ f ∈ [(⟨some 2, "Up", 0, "F"⟩ : Force)], ∃ m, f.magnitude = some m ∧ 0 < m) ∧
    resultant [⟨some 2, "Up", 0, "F"⟩]
        [⟨0, 1, 0 + 3/10, 1 + 3/10, "F", some 2⟩] =
      some ((([(⟨0, 1, 0 + 3/10, 1 + 3/10, "F", some 2⟩ : DrawnForce)].map
                DrawnForce.dx).sum,
             ([(⟨0, 1, 0 + 3/10, 1 + 3/10, "F", some 2⟩ : DrawnForce)].map
                DrawnForce.dy).sum),
        Real.sqrt
          (([(⟨0, 1, 0 + 3/10, 1 + 3/10, "F", some 2⟩ : DrawnForce)].map
              DrawnForce.dx).sum ^ 2 +
           ([(⟨0, 1, 0 + 3/10, 1 + 3/10, "F", some 2⟩ : DrawnForce)].map
              DrawnForce.dy).sum ^ 2)) := by
  have hL : layoutAll false false [(⟨some 2, "Up", 0, "F"⟩ : Force)] =
      some [⟨0, 1, 0 + 3/10, 1 + 3/10, "F", some 2⟩] := by
    simp only [layoutAll, layoutForce, effectiveForce, displacementOf, direction_map]
    norm_num
  have hknown : ∀ f ∈ [(⟨some 2, "Up", 0, "F"⟩ : Force)],
      ∃ m, f.magnitude = some m ∧ 0 < m := by
    intro f hf
    rw [List.mem_singleton] at hf
    exact ⟨2, by rw [hf], by norm_num⟩
  exact ⟨hL, hknown, C2_resultant_componentwise_sum false false _ _ hL hknown⟩

/-- C5 counterexample: forces [{1 N, "Up"}, {1 N, "Sideways"}] in
non-simple, non-angled mode. The claim says the valid first force is still
laid out and the bad one skipped with a warning; in fact the unrecognized
token raises `KeyError` and the whole render aborts — `layoutAll` is `none`,
so no successful layout (of any subset) is produced. -/
theorem C5_counterexample :
    layoutAll false false
      [⟨some 1, "Up", 0, "F1"⟩, ⟨some 1, "Sideways", 0, "F2"⟩] = none := by
  norm_num [layoutAll, layoutForce, effectiveForce, displacementOf,
    direction_map_up, direction_map_sideways, Option.map_some']

/-- C5 amended: a force with a known positive effective magnitude and an
unrecognized direction token (in non-angled mode, where the token is
consulted) aborts the whole render: `layoutAll` returns `none`; no other
force is laid out and no warning-level signal is produced. -/
theorem C5_bad_direction_aborts_render (simple_mode : Bool) (fs : List Force)
    (h : ∃ f ∈ fs, (∃ m, effectiveForce simple_mode f = some m ∧ 0 < m) ∧
      direction_map f.direction = none) :
    layoutAll simple_mode false fs = none := by
  induction fs with
  | nil =>
    obtain ⟨f, hf, -⟩ := h
    cases hf
  | cons g rest ih =>
    obtain ⟨f, hf, hfm, hfd⟩ := h
    rcases List.mem_cons.mp hf with rfl | hf'
    · have habort : layoutForce simple_mode false f = .aborted := by
        obtain ⟨m, hm, hmpos⟩ := hfm
        unfold layoutForce
        simp only [hm]
        rw [if_neg (not_le.mpr hmpos)]
        unfold displacementOf
        simp only [Bool.false_eq_true, if_false, hfd, Option.map_none']
      simp only [layoutAll, habort]
    · cases hg : layoutForce simple_mode false g with
      | aborted => simp only [layoutAll, hg]
      | skipped =>
        simp only [layoutAll, hg]
        exact ih ⟨f, hf', hfm, hfd⟩
      | drawn d =>
        simp only [layoutAll, hg, ih ⟨f, hf', hfm, hfd⟩, Option.map_none']

/-- Witness for the amended C5: a single 1 N force with token "Diag". -/
theorem C5_amended_witness :
    (∃ f ∈ [(⟨some 1, "Diag", 0, "F"⟩ : Force)],
      (∃ m, effectiveForce false f = some m ∧ 0 < m) ∧
      direction_map f.direction = none) ∧
    layoutAll false false [⟨some 1, "Diag", 0, "F"⟩] = none := by
  have h : ∃ f ∈ [(⟨some 1, "Diag", 0, "F"⟩ : Force)],
      (∃ m, effectiveForce false f = some m ∧ 0 < m) ∧
      direction_map f.direction = none := by
    refine ⟨_, List.mem_singleton_self _, ⟨1, rfl, by norm_num⟩, ?_⟩
    simp [direction_map]
  exact ⟨h, C5_bad_direction_aborts_render false _ h⟩

/-- `rect_size = 1.0` (src/app.py lines 52 and 56): the default reference
square has fixed size 1, never derived from the magnitudes. -/
def rect_size : ℚ := 1

/-- C3 counterexample: with known magnitudes [5, 10] (both Right,
non-simple, non-angled) the 10 N force is drawn with displacement (5, 0):
the effective scale factor is the fixed constant 0.5, not
K / max = 2.0 / 10, which would give displacement (2, 0). -/
theorem C3_counterexample :
    layoutAll false false
      [⟨some 5, "Right", 0, "A"⟩, ⟨some 10, "Right", 0, "B"⟩] =
      some [⟨5/2, 0, 5/2 + 3/10, 0 + 3/10, "A", some 5⟩,
            ⟨5, 0, 5 + 3/10, 0 + 3/10, "B", some 10⟩] ∧
    ((5 : ℝ) ≠ 10 * (2/10) * 1) := by
  constructor
  · norm_num [layoutAll, layoutForce, effectiveForce, displacementOf,
      direction_map_right, Option.map_some']
  · norm_num

/-- C3 amended: src/app.py derives no scale factor from the magnitudes.
In every render mode (simple or not, angled or not), every drawn force's
displacement is `unit_vector * magnitude * 0.5` with the fixed constant
0.5, independent of the other magnitudes in the render (so magnitudes
[5, 10] are drawn at lengths 2.5 and 5); the unit vector is the resolved
direction — the `direction_map` entry in direction mode, or
(cos θ, sin θ) of the converted angle in angled mode — and the reference
square has the fixed size `rect_size = 1` whether or not any magnitude is
known. -/
theorem C3_amended_constant_half_scale :
    rect_size = 1 ∧
    ∀ (simple_mode angled_mode : Bool) (fs : List Force) (L : List DrawnForce),
      layoutAll simple_mode angled_mode fs = some L →
      ∀ d ∈ L, ∃ f ∈ fs, ∃ force : ℚ, ∃ u : ℝ × ℝ,
        effectiveForce simple_mode f = some force ∧
        u.1 ^ 2 + u.2 ^ 2 = 1 ∧
        (angled_mode = true →
          u = (Real.cos ((f.angleDeg : ℝ) * Real.pi / 180),
               Real.sin ((f.angleDeg : ℝ) * Real.pi / 180))) ∧
        (angled_mode = false →
          ∃ uq, direction_map f.direction = some uq ∧
            u = ((uq.1 : ℝ), (uq.2 : ℝ))) ∧
        d.dx = u.1 * (force : ℝ) * (1/2) ∧
        d.dy = u.2 * (force : ℝ) * (1/2) := by
  refine ⟨rfl, ?_⟩
  intro simple_mode angled_mode fs L hL d hd
  obtain ⟨f, hf, hdrawn⟩ := layoutAll_mem _ _ _ _ hL d hd
  obtain ⟨force, he, -, hdisp, -, -, -, -⟩ := layoutForce_drawn _ _ _ _ hdrawn
  unfold displacementOf at hdisp
  cases angled_mode with
  | true =>
    simp only [if_true, Option.some.injEq, Prod.mk.injEq] at hdisp
    obtain ⟨h1, h2⟩ := hdisp
    refine ⟨f, hf, force,
      (Real.cos ((f.angleDeg : ℝ) * Real.pi / 180),
       Real.sin ((f.angleDeg : ℝ) * Real.pi / 180)),
      he, ?_, fun _ => rfl, fun hcontra => Bool.noConfusion hcontra, ?_, ?_⟩
    · exact Real.cos_sq_add_sin_sq _
    · rw [← h1]; ring
    · rw [← h2]; ring
  | false =>
    simp only [Bool.false_eq_true, if_false] at hdisp
    cases hu : direction_map f.direction with
    | none => rw [hu] at hdisp; exact Option.noConfusion hdisp
    | some u =>
      rw [hu] at hdisp
      simp only [Option.map_some', Option.some.injEq, Prod.mk.injEq] at hdisp
      obtain ⟨h1, h2⟩ := hdisp
      refine ⟨f, hf, force, ((u.1 : ℝ), (u.2 : ℝ)), he, ?_,
        fun hcontra => Bool.noConfusion hcontra, fun _ => ⟨u, hu, rfl⟩, ?_, ?_⟩
      · show ((u.1 : ℝ)) ^ 2 + ((u.2 : ℝ)) ^ 2 = 1
        exact_mod_cast direction_map_unit _ _ hu
      · rw [← h1]; push_cast; ring
      · rw [← h2]; push_cast; ring

/-- Witness for the amended C3: the render of [5 N Right, 10 N Right]
draws the 5 N force at displacement (5/2, 0) = (1, 0) * 5 * 0.5. -/
theorem C3_amended_witness :
    layoutAll false false
      [⟨some 5, "Right", 0, "A"⟩, ⟨some 10, "Right", 0, "B"⟩] =
      some [⟨5/2, 0, 5/2 + 3/10, 0 + 3/10, "A", some 5⟩,
            ⟨5, 0, 5 + 3/10, 0 + 3/10, "B", some 10⟩] ∧
    ∃ f ∈ [(⟨some 5, "Right", 0, "A"⟩ : Force), ⟨some 10, "Right", 0, "B"⟩],
      ∃ force : ℚ, ∃ u : ℝ × ℝ,
        effectiveForce false f = some force ∧
        u.1 ^ 2 + u.2 ^ 2 = 1 ∧
        (false = true →
          u = (Real.cos ((f.angleDeg : ℝ) * Real.pi / 180),
               Real.sin ((f.angleDeg : ℝ) * Real.pi / 180))) ∧
        (false = false →
          ∃ uq, direction_map f.direction = some uq ∧
            u = ((uq.1 : ℝ), (uq.2 : ℝ))) ∧
        (5/2 : ℝ) = u.1 * (force : ℝ) * (1/2) ∧
        (0 : ℝ) = u.2 * (force : ℝ) * (1/2) := by
  have hL : layoutAll false false
      [(⟨some 5, "Right", 0, "A"⟩ : Force), ⟨some 10, "Right", 0, "B"⟩] =
      some [⟨5/2, 0, 5/2 + 3/10, 0 + 3/10, "A", some 5⟩,
            ⟨5, 0, 5 + 3/10, 0 + 3/10, "B", some 10⟩] := by
    norm_num [layoutAll, layoutForce, effectiveForce, displacementOf,
      direction_map_right, Option.map_some']
  refine ⟨hL, ?_⟩
  exact C3_amended_constant_half_scale.2 false false _ _ hL
    ⟨5/2, 0, 5/2 + 3/10, 0 + 3/10, "A", some 5⟩ (List.mem_cons_self _ _)

/-- C8 counterexample: rendering [1 N Up, 2 N Up] (non-simple, non-angled)
anchors both labels at tip + (0.3, 0.3). Under the claimed rule
anchor = tip + displacement·mult + nudge·(perpendicular unit), the Up
direction makes the perpendicular the x-axis, so the y-components force
mult = 3/5 from the first force and mult = 3/10 from the second: no
caller-supplied multiplier (with any fixed nudge) reproduces the render. -/
theorem C8_counterexample :
    layoutAll false false [⟨some 1, "Up", 0, "F1"⟩, ⟨some 2, "Up", 0, "F2"⟩] =
      some [⟨0, 1/2, 0 + 3/10, 1/2 + 3/10, "F1", some 1⟩,
            ⟨0, 1, 0 + 3/10, 1 + 3/10, "F2", some 2⟩] ∧
    ¬ ∃ mult nudge : ℝ,
      ((0 + 3/10 : ℝ) = 0 + mult * 0 + nudge ∧
       (1/2 + 3/10 : ℝ) = 1/2 + mult * (1/2)) ∧
      ((0 + 3/10 : ℝ) = 0 + mult * 0 + nudge ∧
       (1 + 3/10 : ℝ) = 1 + mult * 1) := by
  constructor
  · norm_num [layoutAll, layoutForce, effectiveForce, displacementOf,
      direction_map_up, Option.map_some']
  · rintro ⟨mult, nudge, ⟨-, h2⟩, ⟨-, h4⟩⟩
    have hm1 : mult = 3/5 := by linarith
    have hm2 : mult = 3/10 := by linarith
    rw [hm1] at hm2
    norm_num at hm2

/-- C8 amended: the label anchor equals the tip shifted by the constant 0.3
along each axis, the sign of each shift following the sign of the
corresponding displacement component (non-negative gives +0.3, negative
gives −0.3); there is no caller-supplied label-distance multiplier and no
offset proportional to the displacement. -/
theorem C8_amended_constant_label_offsets (simple_mode angled_mode : Bool)
    (fs : List Force) (L : List DrawnForce)
    (hL : layoutAll simple_mode angled_mode fs = some L) :
    ∀ d ∈ L,
      d.labelX = d.dx + (if 0 ≤ d.dx then (3 : ℝ)/10 else -(3/10)) ∧
      d.labelY = d.dy + (if 0 ≤ d.dy then (3 : ℝ)/10 else -(3/10)) := by
  intro d hd
  obtain ⟨f, hf, hdrawn⟩ := layoutAll_mem _ _ _ _ hL d hd
  obtain ⟨force, -, -, -, hx, hy, -, -⟩ := layoutForce_drawn _ _ _ _ hdrawn
  exact ⟨hx, hy⟩

/-- Witness for the amended C8: a 1 N force Right is drawn with tip
(1/2, 0) and label anchor (1/2 + 0.3, 0 + 0.3). -/
theorem C8_amended_witness :
    layoutAll false false [⟨some 1, "Right", 0, "F"⟩] =
      some [⟨1/2, 0, 1/2 + 3/10, 0 + 3/10, "F", some 1⟩] ∧
    ((1/2 + 3/10 : ℝ) = 1/2 + (if (0 : ℝ) ≤ 1/2 then (3 : ℝ)/10 else -(3/10)) ∧
     (0 + 3/10 : ℝ) = 0 + (if (0 : ℝ) ≤ 0 then (3 : ℝ)/10 else -(3/10))) := by
  have hL : layoutAll false false [(⟨some 1, "Right", 0, "F"⟩ : Force)] =
      some [⟨1/2, 0, 1/2 + 3/10, 0 + 3/10, "F", some 1⟩] := by
    norm_num [layoutAll, layoutForce, effectiveForce, displacementOf,
      direction_map_right, Option.map_some']
  refine ⟨hL, ?_⟩
  exact C8_amended_constant_label_offsets false false _ _ hL
    ⟨1/2, 0, 1/2 + 3/10, 0 + 3/10, "F", some 1⟩ (List.mem_singleton_self _)

/-- The direction vector components all lie in [-1, 1]. -/
theorem direction_map_abs_le_one (s : String) (u : ℚ × ℚ)
    (h : direction_map s = some u) :
    -1 ≤ u.1 ∧ u.1 ≤ 1 ∧ -1 ≤ u.2 ∧ u.2 ≤ 1 := by
  unfold direction_map at h
  split_ifs at h <;> rw [← Option.some.inj h] <;> norm_num

/-- C9 counterexample: a single known 4 N force Right is drawn with tip
(2, 0), which lies beyond the fixed right view bound 1.5 — the arrow is
clipped, so the bounds do not extend beyond the largest vector extent for
every sequence of known magnitudes. -/
theorem C9_counterexample :
    layoutAll false false [⟨some 4, "Right", 0, "F"⟩] =
      some [⟨2, 0, 2 + 3/10, 0 + 3/10, "F", some 4⟩] ∧
    xlim.2 < (2 : ℝ) := by
  constructor
  · norm_num [layoutAll, layoutForce, effectiveForce, displacementOf,
      direction_map_right, Option.map_some']
  · show (3/2 : ℝ) < 2
    norm_num

/-- C9 amended: the view bounds are the fixed square [-1.5, 1.5]² whatever
is drawn — not a margin beyond the largest vector extent; in direction
(non-angled) mode all arrow tips and label anchors fit inside the bounds
provided every effective magnitude is at most 2.4; larger magnitudes
produce geometry outside the bounds. -/
theorem C9_amended_fixed_view_bounds :
    xlim = (-(3/2), 3/2) ∧ ylim = (-(3/2), 3/2) ∧
    ∀ (simple_mode : Bool) (fs : List Force) (L : List DrawnForce),
      layoutAll simple_mode false fs = some L →
      (∀ f ∈ fs, ∀ m, effectiveForce simple_mode f = some m → m ≤ 12/5) →
      ∀ d ∈ L,
        xlim.1 ≤ d.dx ∧ d.dx ≤ xlim.2 ∧ ylim.1 ≤ d.dy ∧ d.dy ≤ ylim.2 ∧
        xlim.1 ≤ d.labelX ∧ d.labelX ≤ xlim.2 ∧
        ylim.1 ≤ d.labelY ∧ d.labelY ≤ ylim.2 := by
  refine ⟨rfl, rfl, ?_⟩
  intro simple_mode fs L hL hbound d hd
  obtain ⟨f, hf, hdrawn⟩ := layoutAll_mem _ _ _ _ hL d hd
  obtain ⟨force, he, hfpos, hdisp, hlx, hly, -, -⟩ := layoutForce_drawn _ _ _ _ hdrawn
  have hm2 : force ≤ 12/5 := hbound f hf force he
  have hm0 : (0 : ℚ) < force := not_le.mp hfpos
  unfold displacementOf at hdisp
  simp only [Bool.false_eq_true, if_false] at hdisp
  cases hu : direction_map f.direction with
  | none => rw [hu] at hdisp; exact Option.noConfusion hdisp
  | some u =>
    rw [hu] at hdisp
    simp only [Option.map_some', Option.some.injEq, Prod.mk.injEq] at hdisp
    obtain ⟨h1, h2⟩ := hdisp
    obtain ⟨hu1, hu2, hu3, hu4⟩ := direction_map_abs_le_one _ _ hu
    have hu1r : (-1 : ℝ) ≤ (u.1 : ℝ) := by exact_mod_cast hu1
    have hu2r : ((u.1 : ℝ)) ≤ 1 := by exact_mod_cast hu2
    have hu3r : (-1 : ℝ) ≤ (u.2 : ℝ) := by exact_mod_cast hu3
    have hu4r : ((u.2 : ℝ)) ≤ 1 := by exact_mod_cast hu4
    have hm2r : ((force : ℝ)) ≤ 12/5 := by
      have hc : ((12/5 : ℚ) : ℝ) = 12/5 := by norm_num
      rw [← hc]
      exact Rat.cast_le.mpr hm2
    have hm0r : (0 : ℝ) < (force : ℝ) := by exact_mod_cast hm0
    have hdx1 : -(6/5 : ℝ) ≤ d.dx := by
      rw [← h1]; push_cast; nlinarith [hu1r, hm0r, hm2r]
    have hdx2 : d.dx ≤ (6/5 : ℝ) := by
      rw [← h1]; push_cast; nlinarith [hu2r, hm0r, hm2r]
    have hdy1 : -(6/5 : ℝ) ≤ d.dy := by
      rw [← h2]; push_cast; nlinarith [hu3r, hm0r, hm2r]
    have hdy2 : d.dy ≤ (6/5 : ℝ) := by
      rw [← h2]; push_cast; nlinarith [hu4r, hm0r, hm2r]
    have hx1 : xlim.1 = -(3/2 : ℝ) := rfl
    have hx2 : xlim.2 = (3/2 : ℝ) := rfl
    have hy1 : ylim.1 = -(3/2 : ℝ) := rfl
    have hy2 : ylim.2 = (3/2 : ℝ) := rfl
    rw [hx1, hx2, hy1, hy2, hlx, hly]
    refine ⟨by linarith, by linarith, by linarith, by linarith, ?_, ?_, ?_, ?_⟩
    · split_ifs with hs <;> linarith
    · split_ifs with hs <;> linarith
    · split_ifs with hs <;> linarith
    · split_ifs with hs <;> linarith

/-- Witness for the amended C9: a 2 N force Up (2 ≤ 2.4) stays inside the
fixed bounds, tip (0, 1) and label anchor (0.3, 1.3). -/
theorem C9_amended_witness :
    layoutAll false false [⟨some 2, "Up", 0, "F"⟩] =
      some [⟨0, 1, 0 + 3/10, 1 + 3/10, "F", some 2⟩] ∧
    (∀ f ∈ [(⟨some 2, "Up", 0, "F"⟩ : Force)], ∀ m : ℚ,
      effectiveForce false f = some m → m ≤ 12/5) ∧
    (xlim.1 ≤ (0 : ℝ) ∧ (0 : ℝ) ≤ xlim.2 ∧ ylim.1 ≤ (1 : ℝ) ∧ (1 : ℝ) ≤ ylim.2 ∧
     xlim.1 ≤ (0 + 3/10 : ℝ) ∧ (0 + 3/10 : ℝ) ≤ xlim.2 ∧
     ylim.1 ≤ (1 + 3/10 : ℝ) ∧ (1 + 3/10 : ℝ) ≤ ylim.2) := by
  have hL : layoutAll false false [(⟨some 2, "Up", 0, "F"⟩ : Force)] =
      some [⟨0, 1, 0 + 3/10, 1 + 3/10, "F", some 2⟩] := by
    norm_num [layoutAll, layoutForce, effectiveForce, displacementOf,
      direction_map_up, Option.map_some']
  have hbound : ∀ f ∈ [(⟨some 2, "Up", 0, "F"⟩ : Force)], ∀ m : ℚ,
      effectiveForce false f = some m → m ≤ 12/5 := by
    intro f hf m hm
    rw [List.mem_singleton] at hf
    subst hf
    have : (some 2 : Option ℚ) = some m := by rw [← hm]; rfl
    rw [← Option.some.inj this]
    norm_num
  exact ⟨hL, hbound, C9_amended_fixed_view_bounds.2.2 false _ _ hL hbound
    ⟨0, 1, 0 + 3/10, 1 + 3/10, "F", some 2⟩ (List.mem_singleton_self _)⟩

/-- The candidate grid is non-empty. -/
theorem gridCandidates_ne_nil : gridCandidates ≠ [] := by
  intro h
  have h1 := gridCandidates_head
  rw [h] at h1
  exact Option.noConfusion h1

/-- The search loop always reports the position it returns together with
that position's own density. -/
theorem bestPosition_eq (points : List (ℝ × ℝ)) :
    searchLoop (density points) gridCandidates none =
      some (density points (bestPosition points), bestPosition points) := by
  rw [searchLoop_none_eq]
  cases h : firstMin (density points) gridCandidates with
  | none => exact absurd (firstMin_eq_none _ _ h) gridCandidates_ne_nil
  | some p =>
    obtain ⟨m, b⟩ := p
    have hm := (firstMin_spec _ _ _ _ h).1
    have hb : bestPosition points = b := by
      unfold bestPosition
      rw [searchLoop_none_eq, h]
    rw [hb, hm]

/-- Every grid candidate lies within squared distance 2 of the origin. -/
theorem gridCandidates_sq_le (c : ℚ × ℚ) (hc : c ∈ gridCandidates) :
    c.1 ^ 2 + c.2 ^ 2 ≤ 2 := by
  unfold gridCandidates at hc
  simp only [List.mem_flatMap, List.mem_map] at hc
  obtain ⟨gx, hgx, gy, hgy, hpair⟩ := hc
  have h1 : ∀ x ∈ grid_x, x ^ 2 ≤ 1 := by
    rw [grid_x_eq]
    intro x hx
    fin_cases hx <;> norm_num
  rw [← hpair]
  have hx := h1 gx hgx
  have hy := h1 gy hgy
  show gx ^ 2 + gy ^ 2 ≤ 2
  linarith

/-- Crowding score of a single occupied point: one Gaussian kernel. -/
theorem density_singleton (p : ℝ × ℝ) (g : ℚ × ℚ) :
    density [p] g =
      Real.exp (-(((g.1 : ℝ) - p.1) ^ 2 + ((g.2 : ℝ) - p.2) ^ 2)) := by
  simp [density]

/-- The ten samples of `np.linspace(-1.5, 1.5, 10)`, written out. -/
theorem linspaceVisible_eq :
    linspace (-(3/2)) (3/2) 10 =
      [-(3/2), -(7/6), -(5/6), -(1/2), -(1/6), 1/6, 1/2, 5/6, 7/6, 3/2] := by
  norm_num [linspace, List.range_succ]

/-- C4 counterexample: for the single occupied point (0, 0) the code
returns (-1, -1), the first corner of its `np.linspace(-1, 1, 10)` grid;
(-1, -1) is not a candidate of any 10×10 grid over the visible bounds
[-1.5, 1.5]², so the claim's grid is wrong (the code's grid is an inset of
the visible bounds, not a grid over them). -/
theorem C4_counterexample :
    bestPosition [((0 : ℝ), 0)] = (-1, -1) ∧
    ((-1 : ℚ), (-1 : ℚ)) ∉ visibleBoundsGrid := by
  constructor
  · unfold bestPosition
    cases hg : gridCandidates with
    | nil => exact absurd hg gridCandidates_ne_nil
    | cons c rest =>
      have hc : c = (-1, -1) := by
        have h1 := gridCandidates_head
        rw [hg] at h1
        exact Option.some.inj h1
      have hloop := searchLoop_head (density [((0 : ℝ), 0)]) c rest (by
        intro x hx
        have hxg : x ∈ gridCandidates := by rw [hg]; exact List.mem_cons.mpr (List.mem_cons.mp hx)
        have hb : ((x.1 : ℝ)) ^ 2 + (x.2 : ℝ) ^ 2 ≤ 2 := by
          exact_mod_cast gridCandidates_sq_le x hxg
        rw [density_singleton, density_singleton, hc]
        apply Real.exp_le_exp.mpr
        apply neg_le_neg
        push_cast
        nlinarith [hb])
      rw [hloop]
      exact hc
  · intro hmem
    unfold visibleBoundsGrid at hmem
    rw [linspaceVisible_eq] at hmem
    simp only [List.mem_flatMap, List.mem_map] at hmem
    obtain ⟨gx, hgx, gy, hgy, hpair⟩ := hmem
    rw [Prod.mk.injEq] at hpair
    obtain ⟨h1, -⟩ := hpair
    rw [h1] at hgx
    norm_num [List.mem_cons] at hgx

/-- C4 amended: the density-based placement search returns the candidate of
the 10×10 grid over the fixed square [-1, 1]² (`np.linspace(-1, 1, 10)` per
axis, an inset of the visible bounds [-1.5, 1.5]², not a grid over them)
that minimizes the crowding score, and on ties the first minimizer in scan
order (outer x, inner y): every candidate before the returned one scores
strictly higher. -/
theorem C4_amended_inset_grid_argmin (points : List (ℝ × ℝ)) :
    ∃ l₁ l₂, gridCandidates = l₁ ++ bestPosition points :: l₂ ∧
      (∀ c ∈ gridCandidates,
        density points (bestPosition points) ≤ density points c) ∧
      (∀ c ∈ l₁, density points (bestPosition points) < density points c) := by
  have h := bestPosition_eq points
  rw [searchLoop_none_eq] at h
  obtain ⟨-, l₁, l₂, hsplit, hmin, hfirst⟩ := firstMin_spec _ _ _ _ h
  exact ⟨l₁, l₂, hsplit, hmin, hfirst⟩

/-- Witness for the amended C4: instantiated at the empty occupied set. -/
theorem C4_amended_witness :
    ∃ l₁ l₂, gridCandidates = l₁ ++ bestPosition [] :: l₂ ∧
      (∀ c ∈ gridCandidates, density [] (bestPosition []) ≤ density [] c) ∧
      (∀ c ∈ l₁, density [] (bestPosition []) < density [] c) :=
  C4_amended_inset_grid_argmin []

end FreeBody
